import Mathlib

/-!
Shallow embedding of the multitrack synchronization engine
(`src/multitrack.ts`, class `MultiTrack`) and proofs about it.

Times, durations and rates are modelled as rationals; the audio elements,
the wavesurfer widgets and the DOM are reduced to the state the engine
reads and writes (`src`, `currentTime`, `paused`, `muted`, `playbackRate`,
`duration`).  Calls made on a resource (play / pause / seek / mute) and
events emitted by the engine are recorded explicitly so that "no redundant
transition" and "no event emitted" properties can be stated.
-/

namespace Multitrack

/-- Model of `TrackOptions` restricted to the fields the synchronization
engine reads: identity, resource presence (`url` / `options.media`),
draggability, start offset and the cue window.  An absent optional field
of the TS type is `none` / `false` here. -/
structure Track where
  id : String
  url : Option String
  hasMedia : Bool
  draggable : Bool
  startPosition : ℚ
  startCue : Option ℚ
  endCue : Option ℚ
  deriving Repr, DecidableEq

/-- Model of a playback resource (`HTMLAudioElement` / `WebAudioPlayer`):
the fields the engine reads and writes. -/
structure Audio where
  src : String
  currentTime : ℚ
  paused : Bool
  muted : Bool
  playbackRate : ℚ
  duration : ℚ
  deriving Repr, DecidableEq

/-- Model of the mutable `MultiTrack` state: parallel `tracks` / `audios` /
`durations` lists, the global position `currentTime`, the derived
`maxDuration`, the pending animation-frame handle, and the `dragBounds`
configuration flag. -/
structure MT where
  tracks : List Track
  audios : List Audio
  durations : List ℚ
  currentTime : ℚ
  maxDuration : ℚ
  frameRequest : Option ℕ
  dragBounds : Bool
  deriving Repr, DecidableEq

/-- Data URL of the placeholder track's resource (`webkitUrl` in the
source; its multi-kilobyte base64 payload is abbreviated here, since only
the identity of the constant matters to the engine's `src` comparison). -/
def webkitUrl : String := "data:audio/mpeg;base64,SUQzBABAAAAAQwAAAAwBIAULaBs3cUNPTU0"

/-- Model of `PLACEHOLDER_TRACK`: the synthetic track appended after the
user tracks, at start position 0, whose resource is `webkitUrl`. -/
def PLACEHOLDER_TRACK : Track :=
  { id := "placeholder"
    url := some webkitUrl
    hasMedia := false
    draggable := false
    startPosition := 0
    startCue := none
    endCue := none }

/-- Semantics of the JS expression `x || d` for an optional numeric field
`x` with numeric default `d`: JS `||` falls back on every falsy value, so
both an absent field and a zero field select the default. -/
def jsOr (x : Option ℚ) (d : ℚ) : ℚ :=
  match x with
  | none => d
  | some v => if v = 0 then d else v

/-- Mute decision of `updatePosition` (source line 480):
`newTime < (track.startCue || 0) || newTime > (track.endCue || Infinity)`.
A finite time is never `> Infinity`, so the second disjunct is false
whenever `endCue` is absent or zero (both are falsy, hence coalesce to
`Infinity`). -/
def isMutedCue (track : Track) (newTime : ℚ) : Bool :=
  decide (newTime < jsOr track.startCue 0) ||
    (match track.endCue with
     | none => false
     | some c => if c = 0 then false else decide (newTime > c))

/-- The mute rule as the claim words it:
`muted = localTime < (startCue ?? 0) || localTime > (endCue ?? +infinity)`,
where only an *absent* cue selects the default bound (JS `??`). -/
def specMutedCue (track : Track) (localTime : ℚ) : Bool :=
  decide (localTime < track.startCue.getD 0) ||
    (match track.endCue with
     | none => false
     | some c => decide (localTime > c))

/-- A concrete track with cue window `[2, 8]` (the spec's scenario). -/
def cueTrack : Track :=
  { id := "cue"
    url := some "cue.mp3"
    hasMedia := false
    draggable := false
    startPosition := 0
    startCue := some 2
    endCue := some 8 }

/-- A concrete track whose `endCue` is present but zero: the input on
which JS `||` and `??` semantics part ways. -/
def zeroEndCueTrack : Track :=
  { id := "zec"
    url := some "zec.mp3"
    hasMedia := false
    draggable := false
    startPosition := 0
    startCue := none
    endCue := some 0 }

/-- Drift tolerance of `updatePosition` (`precisionSeconds`, 0.3 s). -/
def precisionSeconds : ℚ := 0.3

/-- A call made on a playback resource. -/
inductive AudioCall
  | seek (time : ℚ)
  | play
  | pause
  | setMuted (muted : Bool)
  deriving Repr, DecidableEq

/-- First statement of the `updatePosition` loop body (source lines
467-469): seek the resource when its clock drifted from the track's local
time by more than the tolerance, clamping the target to `>= 0`. -/
def seekAudio (newTime : ℚ) (audio : Audio) : Audio × List AudioCall :=
  if |audio.currentTime - newTime| > precisionSeconds then
    ({ audio with currentTime := max 0 newTime }, [AudioCall.seek (max 0 newTime)])
  else (audio, [])

/-- Second statement of the `updatePosition` loop body (source lines
471-477): pause the resource when overall playback is paused or the local
time is out of the track bounds (`newTime < 0 || newTime > duration`),
play it otherwise; each transition is guarded by the resource's current
state, so no redundant call is made. -/
def togglePlayback (isPaused : Bool) (newTime duration : ℚ) (audio : Audio) :
    Audio × List AudioCall :=
  if isPaused || decide (newTime < 0) || decide (newTime > duration) then
    if !audio.paused then ({ audio with paused := true }, [AudioCall.pause])
    else (audio, [])
  else if !isPaused then
    if audio.paused then ({ audio with paused := false }, [AudioCall.play])
    else (audio, [])
  else (audio, [])

/-- Third statement of the `updatePosition` loop body (source lines
479-481): write the cue-derived mute flag when it differs from the
resource's current one. -/
def toggleMute (track : Track) (newTime : ℚ) (audio : Audio) :
    Audio × List AudioCall :=
  if isMutedCue track newTime != audio.muted then
    ({ audio with muted := isMutedCue track newTime },
      [AudioCall.setMuted (isMutedCue track newTime)])
  else (audio, [])

/-- Per-track body of `updatePosition` (source lines 462-482), acting on
one track's resource with `newTime = time - track.startPosition`: the
seek, play/pause and mute statements in source order.  Returns the
updated resource together with the list of calls made on it, in order. -/
def updateTrackAudio (isPaused : Bool) (time : ℚ) (track : Track) (duration : ℚ)
    (audio : Audio) : Audio × List AudioCall :=
  let newTime := time - track.startPosition
  let sought := seekAudio newTime audio
  let toggled := togglePlayback isPaused newTime duration sought.1
  let muted := toggleMute track newTime toggled.1
  (muted.1, sought.2 ++ toggled.2 ++ muted.2)

/-- Model of `isPlaying`: some resource is unpaused. -/
def isPlaying (s : MT) : Bool :=
  s.audios.any (fun a => !a.paused)

/-- Model of `updatePosition` (source lines 452-483): store the new global
position and run `updateTrackAudio` on every track's resource.  The
cursor update (and its `autoCenter` flag) belongs to the rendering bridge
and has no engine-visible state.  When `time` equals the current position
the stored value is unchanged, so the unconditional store is faithful. -/
def updatePosition (s : MT) (time : ℚ) : MT :=
  let isPausedNow := !isPlaying s
  { s with
    currentTime := time
    audios := (s.tracks.zip (s.audios.zip s.durations)).map
      (fun p => (updateTrackAudio isPausedNow time p.1 p.2.2 p.2.1).1) }

/-- The reduce of `initDurations` (source lines 205-207):
`tracks.reduce((max, track, index) => Math.max(max, track.startPosition +
durations[index]), 0)`, indexing expressed as a zip (identical whenever
the two lists have equal length, which the theorems' length hypotheses
demand). -/
def computeMaxDuration (tracks : List Track) (ds : List ℚ) : ℚ :=
  (tracks.zip ds).foldl (fun m p => max m (p.1.startPosition + p.2)) 0

/-- Model of `initDurations` (source lines 202-217): store the given
durations, recompute `maxDuration` with `computeMaxDuration`, then give
the placeholder audio (the first one whose `src` is the placeholder URL)
and its durations slot the new `maxDuration`.  The source computes the
value once; it is repeated here verbatim, which denotes the same state. -/
def initDurations (s : MT) (ds : List ℚ) : MT :=
  match s.audios.findIdx? (fun a => some a.src = PLACEHOLDER_TRACK.url) with
  | some i =>
      { s with
        durations := ds.set i (computeMaxDuration s.tracks ds)
        audios :=
          match s.audios[i]? with
          | some a => s.audios.set i { a with duration := computeMaxDuration s.tracks ds }
          | none => s.audios
        maxDuration := computeMaxDuration s.tracks ds }
  | none =>
      { s with durations := ds, maxDuration := computeMaxDuration s.tracks ds }

/-- An event emitted by the engine. -/
inductive MtEvent
  | startPositionChange (id : String) (startPosition : ℚ)
  deriving Repr, DecidableEq

/-- Shared commit step of `onDrag` and `setTrackStartPosition` (source
lines 489-499 and 668-678, which duplicate it line for line): when the
proposed start lies within `[minStart, maxStart]`, store it, recompute
the durations-derived state, re-run `updatePosition` at the unchanged
global position and emit `start-position-change`; otherwise leave the
state untouched and emit nothing. -/
def commitStartPosition (s : MT) (index : ℕ) (track : Track)
    (newStartPosition : ℚ) : MT × List MtEvent :=
  if newStartPosition ≥ (if s.dragBounds then 0 else -(s.durations.getD index 0) - 1) ∧
      newStartPosition ≤ s.maxDuration - s.durations.getD index 0 then
    (updatePosition
      (initDurations
        { s with tracks := s.tracks.set index { track with startPosition := newStartPosition } }
        s.durations)
      s.currentTime,
     [MtEvent.startPositionChange track.id newStartPosition])
  else (s, [])

/-- Model of `onDrag` (source lines 485-500).  A missing index would make
the JS crash on `track.draggable`; it is modelled as the identity and
excluded by the theorems' index-validity hypotheses, as is the
`durations.getD index 0` default inside the commit step. -/
def onDrag (s : MT) (index : ℕ) (delta : ℚ) : MT × List MtEvent :=
  match s.tracks[index]? with
  | none => (s, [])
  | some track =>
      if !track.draggable then (s, [])
      else commitStartPosition s index track (track.startPosition + delta * s.maxDuration)

/-- Model of `setTrackStartPosition` (source lines 664-679): the same
bounds-checked commit as `onDrag`, with an absolute target value. -/
def setTrackStartPosition (s : MT) (index : ℕ) (value : ℚ) : MT × List MtEvent :=
  match s.tracks[index]? with
  | none => (s, [])
  | some track =>
      if !track.draggable then (s, [])
      else commitStartPosition s index track value

/-- A call made by the engine on the host environment or on a resource
during `pause` / `destroy`. -/
inductive EngineCall
  | cancelFrame (handle : ℕ)
  | audioPause
  deriving Repr, DecidableEq

/-- Model of `pause` (source lines 556-558): call `pause()` on every
resource.  The pending animation-frame handle is not touched. -/
def pause (s : MT) : MT × List EngineCall :=
  ({ s with audios := s.audios.map (fun a => { a with paused := true }) },
   s.audios.map (fun _ => EngineCall.audioPause))

/-- Model of `destroy` (source lines 640-653): cancel the pending
animation frame when one is scheduled (DOM handles are nonzero, so the JS
truthiness test is presence here), then pause every resource and detach
its source.  The wavesurfer teardown and DOM removal belong to the
rendering collaborators. -/
def destroy (s : MT) : MT × List EngineCall :=
  ({ s with audios := s.audios.map (fun a => { a with paused := true, src := "" }) },
   (match s.frameRequest with
    | some h => [EngineCall.cancelFrame h]
    | none => []) ++ s.audios.map (fun _ => EngineCall.audioPause))

/-- Candidate position of one `startSync` tick (source lines 526-531):
reduce over the resources, starting from the current global position,
taking the max of `audio.currentTime + track.startPosition` over the
unpaused ones. -/
def syncPosition (s : MT) : ℚ :=
  (s.audios.zip s.tracks).foldl
    (fun pos p => if !p.1.paused then max pos (p.1.currentTime + p.2.startPosition) else pos)
    s.currentTime

/-- The local times of the unpaused resources on the global timeline:
the values the tick candidate maximizes over. -/
def unpausedTimes (s : MT) : List ℚ :=
  ((s.audios.zip s.tracks).filter (fun p => !p.1.paused)).map
    (fun p => p.1.currentTime + p.2.startPosition)

/-- One tick of the `startSync` loop (source lines 525-538): apply the
candidate only when it is strictly ahead of the current position.  The
unconditional rescheduling of the next frame is modelled in `startSync`. -/
def syncFrame (s : MT) : MT :=
  if syncPosition s > s.currentTime then updatePosition s (syncPosition s) else s

/-- Model of `startSync` (source lines 524-541): run the first tick
synchronously and leave a frame scheduled. -/
def startSync (s : MT) : MT :=
  { syncFrame s with frameRequest := some (s.frameRequest.getD 0 + 1) }

/-- Model of `findCurrentTracks` (source lines 502-522): the indexes of
the tracks with a resource whose span covers the current position;
when none qualifies, the first track whose start position equals the
minimum start position among url-bearing tracks (the JS `Math.min()` of
an empty list is `Infinity`, matching no track, hence the empty result). -/
def findCurrentTracks (s : MT) : List ℕ :=
  let indexes := (List.range s.tracks.length).filter (fun index =>
    match s.tracks[index]? with
    | some track =>
        (track.url.isSome || track.hasMedia) &&
        decide (s.currentTime ≥ track.startPosition) &&
        decide (s.currentTime < track.startPosition + s.durations.getD index 0)
    | none => false)
  if indexes.isEmpty then
    match (s.tracks.filter (fun t => t.url.isSome)).map (fun t => t.startPosition) with
    | [] => []
    | sp :: sps =>
        match s.tracks.findIdx? (fun t => t.startPosition = sps.foldl min sp) with
        | some i => [i]
        | none => []
  else indexes

/-- Model of `play` (source lines 543-554): start the synchronization
loop (whose first tick runs synchronously) and call `play()` on the
resources of the tracks at the current position.  The audio-context
resume is host-environment state. -/
def play (s : MT) : MT :=
  let s1 := startSync s
  { s1 with
    audios := (findCurrentTracks s1).foldl
      (fun audios i =>
        match audios[i]? with
        | some a => audios.set i { a with paused := false }
        | none => audios)
      s1.audios }

/-- Model of `setAudioRate` (source lines 573-580): reject a rate outside
`[0.25, 5.0]` before touching any resource, otherwise apply it to every
resource. -/
def setAudioRate (s : MT) (rate : ℚ) : Except String MT :=
  if rate < 0.25 ∨ rate > 5.0 then
    Except.error "Playback rate must be between 0.25 and 5.0"
  else
    Except.ok { s with audios := s.audios.map (fun a => { a with playbackRate := rate }) }

/-- Model of `getCurrentTime` (source lines 586-588). -/
def getCurrentTime (s : MT) : ℚ :=
  s.currentTime

/-- Model of `seekTo` (source lines 591-595): position is a fraction of
`maxDuration`; playback is restarted when it was running (`wasPlaying` is
read on the state *before* the position update, hence the condition on
`s`). -/
def seekTo (s : MT) (position : ℚ) : MT :=
  if isPlaying s then play (updatePosition s (position * s.maxDuration))
  else updatePosition s (position * s.maxDuration)

/-- Model of `setTime` (source lines 597-602): absolute seconds;
playback is restarted when it was running (`wasPlaying` read before the
update, as in `seekTo`). -/
def setTime (s : MT) (time : ℚ) : MT :=
  if isPlaying s then play (updatePosition s time)
  else updatePosition s time

/-- A public operation of the engine, for stating properties of operation
sequences. -/
inductive PubOp
  | opPlay
  | opPause
  | opSetTime (time : ℚ)
  | opSeekTo (position : ℚ)
  | opTick
  | opDrag (index : ℕ) (delta : ℚ)
  | opSetTrackStart (index : ℕ) (value : ℚ)
  | opSetAudioRate (rate : ℚ)
  deriving Repr, DecidableEq

/-- State transition of one public operation (a thrown `setAudioRate`
leaves the state as it was; a clock tick is one `syncFrame`). -/
def runOp (s : MT) (op : PubOp) : MT :=
  match op with
  | .opPlay => play s
  | .opPause => (pause s).1
  | .opSetTime t => setTime s t
  | .opSeekTo p => seekTo s p
  | .opTick => syncFrame s
  | .opDrag i d => (onDrag s i d).1
  | .opSetTrackStart i v => (setTrackStartPosition s i v).1
  | .opSetAudioRate r =>
      match setAudioRate s r with
      | .ok s1 => s1
      | .error _ => s

/-- Operations whose time-like argument is non-negative (`setTime` in
seconds, `seekTo` as a fraction); every other operation vacuously
qualifies. -/
def nonnegArg : PubOp → Prop
  | .opSetTime t => 0 ≤ t
  | .opSeekTo p => 0 ≤ p
  | _ => True

/-- A concrete resource that is loaded and currently paused at time 0. -/
def pausedAudio : Audio :=
  { src := "cue.mp3"
    currentTime := 0
    paused := true
    muted := false
    playbackRate := 1
    duration := 10 }

/-- The placeholder track's resource in the concrete states below. -/
def placeholderAudio : Audio :=
  { src := webkitUrl
    currentTime := 0
    paused := true
    muted := false
    playbackRate := 1
    duration := 10 }

/-- A concrete draggable track starting at 0. -/
def dragTrack : Track :=
  { id := "drag"
    url := some "drag.mp3"
    hasMedia := false
    draggable := true
    startPosition := 0
    startCue := none
    endCue := none }

/-- The draggable track's resource. -/
def dragAudio : Audio :=
  { src := "drag.mp3"
    currentTime := 0
    paused := true
    muted := false
    playbackRate := 1
    duration := 10 }

/-- A concrete engine state: one cue track plus the placeholder, nothing
playing, position 0. -/
def baseState : MT :=
  { tracks := [cueTrack, PLACEHOLDER_TRACK]
    audios := [pausedAudio, placeholderAudio]
    durations := [10, 10]
    currentTime := 0
    maxDuration := 10
    frameRequest := none
    dragBounds := false }

/-- A concrete engine state matching the spec's drag scenario: a
draggable track of duration 10 at start 0, `maxDuration = 20`,
`dragBounds` set. -/
def dragState : MT :=
  { tracks := [dragTrack, PLACEHOLDER_TRACK]
    audios := [dragAudio, placeholderAudio]
    durations := [10, 20]
    currentTime := 0
    maxDuration := 20
    frameRequest := none
    dragBounds := true }

/-- A concrete engine state with one playing resource and a pending
animation-frame handle. -/
def playingState : MT :=
  { tracks := [cueTrack, PLACEHOLDER_TRACK]
    audios := [{ pausedAudio with paused := false }, placeholderAudio]
    durations := [10, 10]
    currentTime := 1
    maxDuration := 10
    frameRequest := some 1
    dragBounds := false }

/-! Theorems. -/

theorem jsOr_zero_default (x : Option ℚ) : jsOr x 0 = x.getD 0 := by
  cases x with
  | none => rfl
  | some v =>
    by_cases h : v = 0 <;> simp [jsOr, h]

/-- C1 counterexample: on a track with `endCue = 0` (present, zero) at
local time 1, the code leaves the track unmuted while the claim's rule
(`endCue ?? +infinity`, treating only an absent cue as the default bound)
says it is muted.  The code's `endCue || Infinity` coalesces a zero cue to
the default bound as well. -/
theorem isMutedCue_zero_endCue_diverges :
    isMutedCue zeroEndCueTrack 1 = false ∧ specMutedCue zeroEndCueTrack 1 = true := by
  constructor <;> rfl

/-- C1 (amended): the track is muted exactly when
`localTime < (startCue ?? 0) || localTime > (endCue ?? +infinity)`, except
that a *zero* cue is treated like an absent one (JS `||`, not `??`); for
every track whose `endCue` is not the literal 0 the two readings agree
(for `startCue` they always agree, the default bound being 0), and the
scenario `startCue = 2, endCue = 8` is muted at local time 1, unmuted at
5, muted at 9. -/
theorem isMutedCue_spec :
    (∀ (t : Track) (lt : ℚ), t.endCue ≠ some 0 → isMutedCue t lt = specMutedCue t lt) ∧
    isMutedCue cueTrack 1 = true ∧ isMutedCue cueTrack 5 = false ∧
    isMutedCue cueTrack 9 = true := by
  refine ⟨?_, rfl, rfl, rfl⟩
  intro t lt h
  unfold isMutedCue specMutedCue
  rw [jsOr_zero_default]
  cases hc : t.endCue with
  | none => rfl
  | some c =>
    have hcz : ¬c = 0 := by
      intro hz
      exact h (by rw [hc, hz])
    simp [hcz]

/-- C1 amended-claim witness at the scenario track and local time 5. -/
theorem isMutedCue_spec_witness :
    isMutedCue cueTrack 5 = specMutedCue cueTrack 5 :=
  isMutedCue_spec.1 cueTrack 5 (by decide)

theorem seekAudio_paused (newTime : ℚ) (audio : Audio) :
    (seekAudio newTime audio).1.paused = audio.paused := by
  unfold seekAudio
  split <;> rfl

theorem seekAudio_calls (newTime : ℚ) (audio : Audio) :
    AudioCall.play ∉ (seekAudio newTime audio).2 ∧
    AudioCall.pause ∉ (seekAudio newTime audio).2 := by
  unfold seekAudio
  split <;> simp

theorem toggleMute_paused (track : Track) (newTime : ℚ) (audio : Audio) :
    (toggleMute track newTime audio).1.paused = audio.paused := by
  unfold toggleMute
  split <;> rfl

theorem toggleMute_calls (track : Track) (newTime : ℚ) (audio : Audio) :
    AudioCall.play ∉ (toggleMute track newTime audio).2 ∧
    AudioCall.pause ∉ (toggleMute track newTime audio).2 := by
  unfold toggleMute
  split <;> simp

theorem togglePlayback_paused (isPaused : Bool) (newTime duration : ℚ)
    (audio : Audio) :
    (togglePlayback isPaused newTime duration audio).1.paused =
      (isPaused || decide (newTime < 0) || decide (newTime > duration)) := by
  unfold togglePlayback
  rcases h : (isPaused || decide (newTime < 0) || decide (newTime > duration)) with _ | _
  · have hp : isPaused = false := by
      rcases hb : isPaused
      · rfl
      · rw [hb] at h
        simp at h
    simp only [h, hp, if_false, Bool.not_false, if_true]
    rcases ha : audio.paused <;> simp [ha]
  · simp only [h, if_true]
    rcases ha : audio.paused <;> simp [ha]

theorem togglePlayback_calls (isPaused : Bool) (newTime duration : ℚ)
    (audio : Audio) :
    (AudioCall.play ∈ (togglePlayback isPaused newTime duration audio).2 →
      audio.paused = true) ∧
    (AudioCall.pause ∈ (togglePlayback isPaused newTime duration audio).2 →
      audio.paused = false) := by
  unfold togglePlayback
  rcases ha : audio.paused <;> rcases hb : isPaused <;>
    simp [ha, hb] <;> (try split) <;> simp [ha]

/-- C6 counterexample: with active playback, a track whose local time
equals its duration exactly (`startPosition = 0`, `duration = 10`, global
time 10) is *played* by the code (its bounds test is `newTime > duration`,
so the in-range window is inclusive above), while the claim's in-range
window `0 <= localTime < duration` excludes it and demands the resource
end up paused. -/
theorem updateTrackAudio_boundary_diverges :
    (updateTrackAudio false 10 cueTrack 10 pausedAudio).1.paused = false ∧
    ¬((0 : ℚ) ≤ 10 - cueTrack.startPosition ∧ 10 - cueTrack.startPosition < 10) := by
  constructor
  · norm_num [updateTrackAudio, seekAudio, togglePlayback, toggleMute,
      cueTrack, pausedAudio, precisionSeconds, isMutedCue, jsOr]
  · norm_num [cueTrack]

/-- C6 (amended): `updatePosition` computes `localTime = globalPosition -
startPosition` for each track, and the resource ends up playing exactly
when playback is active and `0 <= localTime <= duration` (the upper bound
is inclusive: the code pauses only when `localTime > duration`); whenever
the track is out of that range or playback is paused the resource ends up
paused; `play` is only called on a paused resource and `pause` only on a
playing one (no redundant transitions). -/
theorem updateTrackAudio_spec (isPaused : Bool) (time : ℚ) (track : Track)
    (duration : ℚ) (audio : Audio) :
    ((updateTrackAudio isPaused time track duration audio).1.paused = false ↔
      (isPaused = false ∧ 0 ≤ time - track.startPosition ∧
        time - track.startPosition ≤ duration)) ∧
    (AudioCall.play ∈ (updateTrackAudio isPaused time track duration audio).2 →
      audio.paused = true) ∧
    (AudioCall.pause ∈ (updateTrackAudio isPaused time track duration audio).2 →
      audio.paused = false) := by
  unfold updateTrackAudio
  refine ⟨?_, ?_, ?_⟩
  · rw [toggleMute_paused, togglePlayback_paused]
    simp only [Bool.or_eq_false_iff, decide_eq_false_iff_not, not_lt]
    constructor
    · rintro ⟨⟨hp, h0⟩, h1⟩
      exact ⟨hp, h0, h1⟩
    · rintro ⟨hp, h0, h1⟩
      exact ⟨⟨hp, h0⟩, h1⟩
  · intro hmem
    simp only [List.mem_append] at hmem
    rcases hmem with (hmem | hmem) | hmem
    · exact absurd hmem (seekAudio_calls _ _).1
    · have := (togglePlayback_calls isPaused (time - track.startPosition) duration
        (seekAudio (time - track.startPosition) audio).1).1 hmem
      rw [seekAudio_paused] at this
      exact this
    · exact absurd hmem (toggleMute_calls _ _ _).1
  · intro hmem
    simp only [List.mem_append] at hmem
    rcases hmem with (hmem | hmem) | hmem
    · exact absurd hmem (seekAudio_calls _ _).2
    · have := (togglePlayback_calls isPaused (time - track.startPosition) duration
        (seekAudio (time - track.startPosition) audio).1).2 hmem
      rw [seekAudio_paused] at this
      exact this
    · exact absurd hmem (toggleMute_calls _ _ _).2

/-- C6 amended-claim witness: at global time 5 with active playback, the
scenario track (start 0, duration 10) ends up playing, its local time 5
lying inside the inclusive range. -/
theorem updateTrackAudio_spec_witness :
    (updateTrackAudio false 5 cueTrack 10 pausedAudio).1.paused = false :=
  (updateTrackAudio_spec false 5 cueTrack 10 pausedAudio).1.mpr
    ⟨rfl, by norm_num [cueTrack], by norm_num [cueTrack]⟩

/-- C10: `setTrackStartPosition` on a track that is not marked draggable
is a complete no-op for every value: the returned state is the input
state (start position, `maxDuration`, global position and every other
field included) and no event is emitted. -/
theorem setTrackStartPosition_not_draggable (s : MT) (index : ℕ) (value : ℚ)
    (track : Track) (htrack : s.tracks[index]? = some track)
    (hdrag : track.draggable = false) :
    setTrackStartPosition s index value = (s, []) := by
  unfold setTrackStartPosition
  rw [htrack]
  simp [hdrag]

/-- C10 witness: setting the start position of the non-draggable cue
track of `baseState` changes nothing and emits nothing. -/
theorem setTrackStartPosition_not_draggable_witness :
    setTrackStartPosition baseState 0 5 = (baseState, []) :=
  setTrackStartPosition_not_draggable baseState 0 5 cueTrack rfl rfl

/-- C7: `setAudioRate` raises the invalid-argument error exactly when the
rate lies outside `[0.25, 5.0]`, in which case the state is untouched (no
resource's playback rate is modified); inside the range, the rate is
applied to every resource and nothing else changes. -/
theorem setAudioRate_spec (s : MT) (rate : ℚ) :
    ((rate < 0.25 ∨ rate > 5.0) →
      setAudioRate s rate = Except.error "Playback rate must be between 0.25 and 5.0") ∧
    (0.25 ≤ rate → rate ≤ 5.0 →
      setAudioRate s rate =
        Except.ok { s with audios := s.audios.map (fun a => { a with playbackRate := rate }) }) := by
  constructor
  · intro h
    unfold setAudioRate
    rw [if_pos h]
  · intro h1 h2
    unfold setAudioRate
    rw [if_neg]
    push_neg
    exact ⟨h1, h2⟩

/-- C7 witness: `setAudioRate(0.1)` fails and `setAudioRate(2.0)` applies
the rate to every resource of the concrete state. -/
theorem setAudioRate_spec_witness :
    setAudioRate baseState (1/10) =
      Except.error "Playback rate must be between 0.25 and 5.0" ∧
    setAudioRate baseState 2 =
      Except.ok { baseState with
        audios := baseState.audios.map (fun a => { a with playbackRate := 2 }) } :=
  ⟨(setAudioRate_spec baseState (1/10)).1 (by norm_num),
   (setAudioRate_spec baseState 2).2 (by norm_num) (by norm_num)⟩

theorem updatePosition_tracks (s : MT) (t : ℚ) :
    (updatePosition s t).tracks = s.tracks := rfl

theorem updatePosition_currentTime (s : MT) (t : ℚ) :
    (updatePosition s t).currentTime = t := rfl

theorem updatePosition_maxDuration (s : MT) (t : ℚ) :
    (updatePosition s t).maxDuration = s.maxDuration := rfl

theorem initDurations_tracks (s : MT) (ds : List ℚ) :
    (initDurations s ds).tracks = s.tracks := by
  unfold initDurations
  split <;> rfl

theorem initDurations_currentTime (s : MT) (ds : List ℚ) :
    (initDurations s ds).currentTime = s.currentTime := by
  unfold initDurations
  split <;> rfl

theorem initDurations_maxDuration (s : MT) (ds : List ℚ) :
    (initDurations s ds).maxDuration = computeMaxDuration s.tracks ds := by
  unfold initDurations
  split <;> rfl

theorem initDurations_durations_found (s : MT) (ds : List ℚ) (p : ℕ)
    (hfind : s.audios.findIdx? (fun a => some a.src = PLACEHOLDER_TRACK.url) = some p) :
    (initDurations s ds).durations = ds.set p (computeMaxDuration s.tracks ds) := by
  unfold initDurations
  rw [hfind]

theorem commitStartPosition_pos (s : MT) (index : ℕ) (track : Track) (v : ℚ)
    (h1 : (if s.dragBounds then (0 : ℚ) else -(s.durations.getD index 0) - 1) ≤ v)
    (h2 : v ≤ s.maxDuration - s.durations.getD index 0) :
    commitStartPosition s index track v =
      (updatePosition
        (initDurations
          { s with tracks := s.tracks.set index { track with startPosition := v } }
          s.durations)
        s.currentTime,
       [MtEvent.startPositionChange track.id v]) := by
  unfold commitStartPosition
  exact if_pos ⟨h1, h2⟩

theorem commitStartPosition_neg (s : MT) (index : ℕ) (track : Track) (v : ℚ)
    (h : ¬((if s.dragBounds then (0 : ℚ) else -(s.durations.getD index 0) - 1) ≤ v ∧
        v ≤ s.maxDuration - s.durations.getD index 0)) :
    commitStartPosition s index track v = (s, []) := by
  unfold commitStartPosition
  exact if_neg h

/-- C2: for a draggable track, `onDrag` computes `proposedStart =
startPosition + delta * maxDuration` and bounds `minStart = 0` when
`dragBounds` is set, else `-(duration) - 1`, and `maxStart = maxDuration -
duration`; inside the bounds the start position is set exactly to the
proposed value, outside them the whole state is left unchanged and no
event is emitted (no clamped or partial commit). -/
theorem onDrag_all_or_nothing (s : MT) (index : ℕ) (delta : ℚ) (track : Track)
    (htrack : s.tracks[index]? = some track)
    (hdrag : track.draggable = true)
    (hdur : index < s.durations.length) :
    (((if s.dragBounds then (0 : ℚ) else -(s.durations.getD index 0) - 1) ≤
        track.startPosition + delta * s.maxDuration ∧
      track.startPosition + delta * s.maxDuration ≤
        s.maxDuration - s.durations.getD index 0) →
      (onDrag s index delta).1.tracks[index]? =
        some { track with startPosition := track.startPosition + delta * s.maxDuration }) ∧
    (¬((if s.dragBounds then (0 : ℚ) else -(s.durations.getD index 0) - 1) ≤
        track.startPosition + delta * s.maxDuration ∧
      track.startPosition + delta * s.maxDuration ≤
        s.maxDuration - s.durations.getD index 0) →
      onDrag s index delta = (s, [])) := by
  obtain ⟨hlen, -⟩ := List.getElem?_eq_some.mp htrack
  unfold onDrag
  rw [htrack]
  dsimp only
  have hnd : (!track.draggable) = false := by rw [hdrag]; rfl
  rw [hnd]
  simp only [Bool.false_eq_true, if_false]
  constructor
  · intro h
    rw [commitStartPosition_pos s index track _ h.1 h.2]
    show (updatePosition _ _).tracks[index]? = _
    rw [updatePosition_tracks, initDurations_tracks]
    exact List.getElem?_set_self hlen
  · intro h
    exact commitStartPosition_neg s index track _ h

/-- C2 witness: the spec's scenario — duration 10, start 0, `maxDuration
= 20`, `dragBounds` set, delta -0.1 — proposes -2, below `minStart = 0`,
and the drag is rejected wholesale. -/
theorem onDrag_all_or_nothing_witness :
    onDrag dragState 0 (-(1/10)) = (dragState, []) :=
  (onDrag_all_or_nothing dragState 0 (-(1/10)) dragTrack rfl rfl
      (by norm_num [dragState])).2
    (by norm_num [dragState, dragTrack])

theorem le_computeMaxDuration_init (l : List (Track × ℚ)) :
    ∀ init : ℚ, init ≤ l.foldl (fun m p => max m (p.1.startPosition + p.2)) init := by
  induction l with
  | nil => intro init; exact le_refl _
  | cons x xs ih =>
    intro init
    simp only [List.foldl_cons]
    exact le_trans (le_max_left _ _) (ih _)

theorem mem_le_computeMaxDuration (t : Track) (d : ℚ) :
    ∀ l : List (Track × ℚ), (t, d) ∈ l → ∀ init : ℚ,
      t.startPosition + d ≤ l.foldl (fun m p => max m (p.1.startPosition + p.2)) init := by
  intro l
  induction l with
  | nil => intro hq init; cases hq
  | cons x xs ih =>
    intro hq init
    simp only [List.foldl_cons]
    rcases List.mem_cons.mp hq with h | h
    · rw [← h]
      exact le_trans (le_max_right _ _) (le_computeMaxDuration_init xs _)
    · exact ih h _

/-- C3: after `initDurations` — the single recomputation point that every
mutation of a start offset or duration runs through (initial load, track
replacement, drag commit, programmatic start-position set) — the stored
`maxDuration` is an upper bound of `startPosition + duration` over all
track/duration pairs, is attained by one of them, and is non-negative.
The hypotheses state what those call sites guarantee: the placeholder
audio sits at an index `p` carrying the placeholder track, whose start
position is 0. -/
theorem initDurations_maxDuration_spec (s : MT) (ds : List ℚ) (p : ℕ) (tp : Track)
    (hfind : s.audios.findIdx? (fun a => some a.src = PLACEHOLDER_TRACK.url) = some p)
    (htp : s.tracks[p]? = some tp)
    (hsp : tp.startPosition = 0)
    (hp : p < ds.length)
    (hlen : s.tracks.length = ds.length) :
    0 ≤ (initDurations s ds).maxDuration ∧
    (∀ q ∈ (initDurations s ds).tracks.zip (initDurations s ds).durations,
      q.1.startPosition + q.2 ≤ (initDurations s ds).maxDuration) ∧
    (∃ q ∈ (initDurations s ds).tracks.zip (initDurations s ds).durations,
      q.1.startPosition + q.2 = (initDurations s ds).maxDuration) := by
  rw [initDurations_durations_found s ds p hfind, initDurations_tracks,
    initDurations_maxDuration]
  refine ⟨le_computeMaxDuration_init _ 0, ?_, ?_⟩
  · rintro ⟨qt, qd⟩ hq
    obtain ⟨i, hi⟩ := List.mem_iff_getElem?.mp hq
    obtain ⟨h1, h2⟩ := List.getElem?_zip_eq_some.mp hi
    by_cases hip : i = p
    · subst hip
      rw [List.getElem?_set_self hp] at h2
      injection h2 with h2
      rw [htp] at h1
      injection h1 with h1
      rw [← h1, ← h2, hsp, zero_add]
    · rw [List.getElem?_set_ne (fun hh => hip hh.symm)] at h2
      exact mem_le_computeMaxDuration qt qd _
        (List.mem_iff_getElem?.mpr ⟨i, List.getElem?_zip_eq_some.mpr ⟨h1, h2⟩⟩) 0
  · refine ⟨(tp, computeMaxDuration s.tracks ds), ?_, ?_⟩
    · exact List.mem_iff_getElem?.mpr
        ⟨p, List.getElem?_zip_eq_some.mpr ⟨htp, List.getElem?_set_self hp⟩⟩
    · show tp.startPosition + computeMaxDuration s.tracks ds = computeMaxDuration s.tracks ds
      rw [hsp, zero_add]

/-- C3 witness at the concrete base state. -/
theorem initDurations_maxDuration_spec_witness :
    0 ≤ (initDurations baseState [10, 10]).maxDuration :=
  (initDurations_maxDuration_spec baseState [10, 10] 1 PLACEHOLDER_TRACK
    rfl rfl rfl (by norm_num) rfl).1

/-- C9: when `initDurations` is re-run with the placeholder invariant in
force — the placeholder track at index `p` at start position 0, its
durations slot equal to the previous `maxDuration` — the recomputed
`maxDuration` is at least the previous one, and the placeholder slot is
set to the new `maxDuration`, re-establishing the invariant for the next
recomputation (drag commit, programmatic start-position set, track
replacement). -/
theorem initDurations_monotone (s : MT) (ds : List ℚ) (p : ℕ) (tp : Track)
    (hfind : s.audios.findIdx? (fun a => some a.src = PLACEHOLDER_TRACK.url) = some p)
    (htp : s.tracks[p]? = some tp)
    (hsp : tp.startPosition = 0)
    (hp : p < ds.length)
    (hdur : ds[p]? = some s.maxDuration) :
    s.maxDuration ≤ (initDurations s ds).maxDuration ∧
    (initDurations s ds).durations[p]? = some ((initDurations s ds).maxDuration) := by
  have hmem : (tp, s.maxDuration) ∈ s.tracks.zip ds :=
    List.mem_iff_getElem?.mpr ⟨p, List.getElem?_zip_eq_some.mpr ⟨htp, hdur⟩⟩
  have h1 := mem_le_computeMaxDuration tp s.maxDuration _ hmem 0
  rw [hsp, zero_add] at h1
  constructor
  · rw [initDurations_maxDuration]
    exact h1
  · rw [initDurations_durations_found s ds p hfind, initDurations_maxDuration]
    exact List.getElem?_set_self hp

/-- C9 witness: recomputing over the concrete base state (placeholder
slot holding the previous `maxDuration` 10) does not decrease it. -/
theorem initDurations_monotone_witness :
    baseState.maxDuration ≤ (initDurations baseState [10, 10]).maxDuration :=
  (initDurations_monotone baseState [10, 10] 1 PLACEHOLDER_TRACK
    rfl rfl rfl (by norm_num) rfl).1

theorem syncPosition_foldl (l : List (Audio × Track)) :
    ∀ init : ℚ,
      l.foldl (fun pos p =>
        if !p.1.paused then max pos (p.1.currentTime + p.2.startPosition) else pos) init =
      ((l.filter (fun p => !p.1.paused)).map
        (fun p => p.1.currentTime + p.2.startPosition)).foldl max init := by
  induction l with
  | nil => intro init; rfl
  | cons x xs ih =>
    intro init
    rcases hx : x.1.paused with _ | _
    · simp only [List.foldl_cons, List.filter_cons, hx, Bool.not_false, if_true,
        List.map_cons]
      exact ih _
    · simp only [List.foldl_cons, List.filter_cons, hx, Bool.not_true, Bool.false_eq_true,
        if_false]
      exact ih _

theorem syncFrame_currentTime_mono (s : MT) :
    s.currentTime ≤ (syncFrame s).currentTime := by
  unfold syncFrame
  split
  · next h =>
      rw [updatePosition_currentTime]
      exact le_of_lt h
  · exact le_refl _

theorem syncFrame_maxDuration (s : MT) :
    (syncFrame s).maxDuration = s.maxDuration := by
  unfold syncFrame
  split
  · exact updatePosition_maxDuration _ _
  · rfl

/-- C4: the tick candidate of the Synchronization Clock is the max of the
current global position and `resource.currentTime + track.startPosition`
over the unpaused resources (a fold of `max` over those values starting
from the global position); the position is applied only when the
candidate is strictly ahead, it never decreases on a tick, and hence
never decreases across any number of consecutive ticks. -/
theorem syncFrame_spec (s : MT) :
    syncPosition s = (unpausedTimes s).foldl max s.currentTime ∧
    s.currentTime ≤ (syncFrame s).currentTime ∧
    (syncPosition s > s.currentTime →
      syncFrame s = updatePosition s (syncPosition s)) ∧
    (syncPosition s ≤ s.currentTime → syncFrame s = s) ∧
    (∀ n : ℕ, s.currentTime ≤ (syncFrame^[n] s).currentTime) := by
  refine ⟨?_, syncFrame_currentTime_mono s, ?_, ?_, ?_⟩
  · exact syncPosition_foldl _ _
  · intro h
    unfold syncFrame
    rw [if_pos h]
  · intro h
    unfold syncFrame
    rw [if_neg (not_lt.mpr h)]
  · intro n
    induction n with
    | zero => exact le_refl _
    | succ n ih =>
      rw [Function.iterate_succ_apply']
      exact le_trans ih (syncFrame_currentTime_mono _)

/-- C4 witness: with every resource paused in the concrete base state,
the candidate equals the current position and the tick leaves the state
unchanged. -/
theorem syncFrame_spec_witness : syncFrame baseState = baseState :=
  (syncFrame_spec baseState).2.2.2.1 (le_of_eq rfl)

/-- C5 counterexample: in a concrete state with a pending scheduled tick
(handle 1) and a playing resource, `pause()` issues no cancellation of
the pending animation-frame handle — it only pauses the resources — so
the tick scheduled before the call is still pending after it,
contradicting the claim that `pause()` synchronously cancels it. -/
theorem pause_leaves_tick_pending :
    (pause playingState).1.frameRequest = some 1 ∧
    EngineCall.cancelFrame 1 ∉ (pause playingState).2 := by
  constructor
  · rfl
  · decide

theorem foldl_sync_of_all_paused (l : List (Audio × Track))
    (h : ∀ p ∈ l, p.1.paused = true) :
    ∀ init : ℚ,
      l.foldl (fun pos p =>
        if !p.1.paused then max pos (p.1.currentTime + p.2.startPosition) else pos) init =
        init := by
  induction l with
  | nil => intro init; rfl
  | cons x xs ih =>
    intro init
    have hx := h x (List.mem_cons_self x xs)
    simp only [List.foldl_cons, hx, Bool.not_true, Bool.false_eq_true, if_false]
    exact ih (fun p hp => h p (List.mem_cons_of_mem _ hp)) init

/-- C5 (amended): `destroy()` cancels the pending scheduled tick handle;
`pause()` does not — it leaves the pending handle in place and issues no
cancellation, only pausing every resource — so the clock loop keeps being
rescheduled, but a tick taken after `pause()` finds every resource paused
and leaves the state unchanged (the position stops advancing) until
`play()` restarts playback. -/
theorem pause_destroy_clock_spec (s : MT) :
    (∀ h, s.frameRequest = some h → EngineCall.cancelFrame h ∈ (destroy s).2) ∧
    (pause s).1.frameRequest = s.frameRequest ∧
    (∀ h, EngineCall.cancelFrame h ∉ (pause s).2) ∧
    (∀ a ∈ (pause s).1.audios, a.paused = true) ∧
    syncFrame (pause s).1 = (pause s).1 := by
  refine ⟨?_, rfl, ?_, ?_, ?_⟩
  · intro h hf
    unfold destroy
    rw [hf]
    simp
  · intro h hmem
    unfold pause at hmem
    simp at hmem
  · intro a ha
    unfold pause at ha
    simp only [List.mem_map] at ha
    obtain ⟨b, hb, rfl⟩ := ha
    rfl
  · have hall : ∀ p ∈ (pause s).1.audios.zip (pause s).1.tracks, p.1.paused = true := by
      intro p hp
      have hmem := (List.of_mem_zip hp).1
      unfold pause at hmem
      simp only [List.mem_map] at hmem
      obtain ⟨b, hb, hba⟩ := hmem
      rw [← hba]
    have hsp : syncPosition (pause s).1 = (pause s).1.currentTime :=
      foldl_sync_of_all_paused _ hall _
    unfold syncFrame
    rw [hsp]
    simp

/-- C5 amended-claim witness: destroying the concrete playing state does
cancel its pending tick handle. -/
theorem pause_destroy_clock_spec_witness :
    EngineCall.cancelFrame 1 ∈ (destroy playingState).2 :=
  (pause_destroy_clock_spec playingState).1 1 rfl

/-- C8 counterexample: the one-operation sequence `setTime(-5)` from the
concrete base state makes `getCurrentTime` return -5, which is negative:
`updatePosition` stores the requested time unclamped (only each
resource's own clock is clamped to `>= 0`). -/
theorem setTime_negative_diverges :
    getCurrentTime (setTime baseState (-5)) = -5 ∧ ¬((0 : ℚ) ≤ -5) := by
  constructor
  · rfl
  · norm_num

theorem play_currentTime (s : MT) :
    (play s).currentTime = (syncFrame s).currentTime := rfl

theorem play_maxDuration (s : MT) :
    (play s).maxDuration = (syncFrame s).maxDuration := rfl

theorem play_inv (s : MT) (h1 : 0 ≤ s.currentTime) (h2 : 0 ≤ s.maxDuration) :
    0 ≤ (play s).currentTime ∧ 0 ≤ (play s).maxDuration := by
  constructor
  · rw [play_currentTime]
    exact le_trans h1 (syncFrame_currentTime_mono s)
  · rw [play_maxDuration, syncFrame_maxDuration]
    exact h2

theorem commitStartPosition_inv (s : MT) (i : ℕ) (t : Track) (v : ℚ)
    (h1 : 0 ≤ s.currentTime) (h2 : 0 ≤ s.maxDuration) :
    0 ≤ (commitStartPosition s i t v).1.currentTime ∧
    0 ≤ (commitStartPosition s i t v).1.maxDuration := by
  by_cases hc : (if s.dragBounds then (0 : ℚ) else -(s.durations.getD i 0) - 1) ≤ v ∧
      v ≤ s.maxDuration - s.durations.getD i 0
  · rw [commitStartPosition_pos s i t v hc.1 hc.2]
    show 0 ≤ (updatePosition _ _).currentTime ∧ 0 ≤ (updatePosition _ _).maxDuration
    constructor
    · rw [updatePosition_currentTime]
      exact h1
    · rw [updatePosition_maxDuration, initDurations_maxDuration]
      exact le_computeMaxDuration_init _ 0
  · rw [commitStartPosition_neg s i t v hc]
    exact ⟨h1, h2⟩

theorem onDrag_inv (s : MT) (i : ℕ) (d : ℚ)
    (h1 : 0 ≤ s.currentTime) (h2 : 0 ≤ s.maxDuration) :
    0 ≤ (onDrag s i d).1.currentTime ∧ 0 ≤ (onDrag s i d).1.maxDuration := by
  unfold onDrag
  split
  · exact ⟨h1, h2⟩
  · next track _ =>
      split
      · exact ⟨h1, h2⟩
      · exact commitStartPosition_inv s i track _ h1 h2

theorem setTrackStartPosition_inv (s : MT) (i : ℕ) (v : ℚ)
    (h1 : 0 ≤ s.currentTime) (h2 : 0 ≤ s.maxDuration) :
    0 ≤ (setTrackStartPosition s i v).1.currentTime ∧
    0 ≤ (setTrackStartPosition s i v).1.maxDuration := by
  unfold setTrackStartPosition
  split
  · exact ⟨h1, h2⟩
  · next track _ =>
      split
      · exact ⟨h1, h2⟩
      · exact commitStartPosition_inv s i track v h1 h2

theorem setTime_inv (s : MT) (t : ℚ) (ht : 0 ≤ t) (h2 : 0 ≤ s.maxDuration) :
    0 ≤ (setTime s t).currentTime ∧ 0 ≤ (setTime s t).maxDuration := by
  unfold setTime
  split
  · exact play_inv (updatePosition s t)
      (by rw [updatePosition_currentTime]; exact ht)
      (by rw [updatePosition_maxDuration]; exact h2)
  · constructor
    · rw [updatePosition_currentTime]
      exact ht
    · rw [updatePosition_maxDuration]
      exact h2

theorem seekTo_inv (s : MT) (p : ℚ) (hp : 0 ≤ p) (h2 : 0 ≤ s.maxDuration) :
    0 ≤ (seekTo s p).currentTime ∧ 0 ≤ (seekTo s p).maxDuration := by
  have ht : 0 ≤ p * s.maxDuration := mul_nonneg hp h2
  unfold seekTo
  split
  · exact play_inv (updatePosition s (p * s.maxDuration))
      (by rw [updatePosition_currentTime]; exact ht)
      (by rw [updatePosition_maxDuration]; exact h2)
  · constructor
    · rw [updatePosition_currentTime]
      exact ht
    · rw [updatePosition_maxDuration]
      exact h2

theorem runOp_inv (op : PubOp) (s : MT) (harg : nonnegArg op)
    (h1 : 0 ≤ s.currentTime) (h2 : 0 ≤ s.maxDuration) :
    0 ≤ (runOp s op).currentTime ∧ 0 ≤ (runOp s op).maxDuration := by
  cases op with
  | opPlay => exact play_inv s h1 h2
  | opPause => exact ⟨h1, h2⟩
  | opSetTime t => exact setTime_inv s t harg h2
  | opSeekTo p => exact seekTo_inv s p harg h2
  | opTick =>
      constructor
      · exact le_trans h1 (syncFrame_currentTime_mono s)
      · rw [show (runOp s PubOp.opTick) = syncFrame s from rfl, syncFrame_maxDuration]
        exact h2
  | opDrag i d => exact onDrag_inv s i d h1 h2
  | opSetTrackStart i v => exact setTrackStartPosition_inv s i v h1 h2
  | opSetAudioRate r =>
      simp only [runOp]
      unfold setAudioRate
      by_cases hc : r < 0.25 ∨ r > 5.0
      · rw [if_pos hc]
        exact ⟨h1, h2⟩
      · rw [if_neg hc]
        exact ⟨h1, h2⟩

/-- C8 (amended): the global position read by `getCurrentTime` stays
non-negative under every sequence of public operations whose `setTime` /
`seekTo` arguments are non-negative, starting from any state with
non-negative position and `maxDuration` (the initial state has both 0).
With a negative argument the guarantee fails: `setTime` and `seekTo`
store the requested position unclamped. -/
theorem getCurrentTime_nonneg (ops : List PubOp) :
    ∀ s : MT, 0 ≤ s.currentTime → 0 ≤ s.maxDuration →
      (∀ op ∈ ops, nonnegArg op) → 0 ≤ getCurrentTime (ops.foldl runOp s) := by
  induction ops with
  | nil =>
      intro s h1 h2 hops
      exact h1
  | cons op ops ih =>
      intro s h1 h2 hops
      simp only [List.foldl_cons]
      have h := runOp_inv op s (hops op (List.mem_cons_self _ _)) h1 h2
      exact ih _ h.1 h.2 (fun o ho => hops o (List.mem_cons_of_mem _ ho))

/-- C8 amended-claim witness: a concrete sequence (a non-negative seek
followed by a clock tick) keeps the position non-negative. -/
theorem getCurrentTime_nonneg_witness :
    0 ≤ getCurrentTime ([PubOp.opSetTime 3, PubOp.opTick].foldl runOp baseState) :=
  getCurrentTime_nonneg [PubOp.opSetTime 3, PubOp.opTick] baseState
    (by norm_num [baseState]) (by norm_num [baseState])
    (by
      intro op hop
      rcases List.mem_cons.mp hop with rfl | hop
      · norm_num [nonnegArg]
      · rcases List.mem_cons.mp hop with rfl | hop
        · exact trivial
        · cases hop)

end Multitrack
